import Mathlib

/-!
Verification development for the template-rendering and assertion-checking
core of the `pe` prompt-engineering toolkit.

The Go sources are embedded shallowly: strings become `List Char` (Go `len`
counts bytes; all inputs in this development are ASCII, where the two agree),
Go's `map[string]interface{}` variable sets become association lists of a
`GoValue` sum type, filesystem access becomes an explicit time-indexed map
from paths to contents, and the regex-driven scanners of the source are
translated into equivalent deterministic left-to-right matchers for the
specific patterns the source compiles.
-/

deriving instance DecidableEq for Except

namespace PE

/-- Characters matched by Go's regexp class `\s`: space, tab, newline,
form feed, carriage return (vertical tab is NOT in Go's `\s`). -/
def isRegexSpace (c : Char) : Bool :=
  c = ' ' || c = '\t' || c = '\n' || c = '\x0c' || c = '\r'

/-- ASCII characters accepted by Go's `unicode.IsSpace`, used by
`strings.TrimSpace`: space, tab, newline, vertical tab, form feed,
carriage return. -/
def isGoSpace (c : Char) : Bool :=
  c = ' ' || c = '\t' || c = '\n' || c = '\x0b' || c = '\x0c' || c = '\r'

/-- `strings.TrimSpace`, left side. -/
def trimLeftL (l : List Char) : List Char := l.dropWhile isGoSpace

/-- `strings.TrimSpace` on a character list. -/
def trimSpaceL (l : List Char) : List Char :=
  ((trimLeftL l).reverse.dropWhile isGoSpace).reverse

/-- `strings.HasPrefix pat s` reordered: does `s` start with `pat`? -/
def startsWith (pat s : List Char) : Bool := pat.isPrefixOf s

/-- `strings.HasSuffix`: does `s` end with `pat`? -/
def endsWith (pat s : List Char) : Bool := pat.reverse.isPrefixOf s.reverse

/-- `strings.Contains s pat`. -/
def containsSub (s pat : List Char) : Bool :=
  match s with
  | [] => pat.isEmpty
  | c :: t => pat.isPrefixOf (c :: t) || containsSub t pat

/-- Auxiliary scan for `strings.ReplaceAll` with a non-empty pattern:
leftmost, non-overlapping replacement.  Each step consumes at least one
character, so fuel above the text length is never exhausted; recursion is
structural on the fuel so that the kernel can evaluate it. -/
def replaceAllAux (pat rep : List Char) : Nat → List Char → List Char
  | 0, s => s
  | _ + 1, [] => []
  | fuel + 1, c :: t =>
    if pat.isPrefixOf (c :: t) then
      rep ++ replaceAllAux pat rep fuel (t.drop (pat.length - 1))
    else
      c :: replaceAllAux pat rep fuel t

/-- `strings.ReplaceAll s pat rep`.  The Go function inserts `rep` between
every character when `pat` is empty; every call site in the embedded source
uses a non-empty pattern, and the empty case is mapped to the identity. -/
def replaceAllL (s pat rep : List Char) : List Char :=
  if pat.isEmpty then s else replaceAllAux pat rep (s.length + 1) s

/-- `strings.SplitN s sep 2` for a non-empty separator, as the pair around
the first occurrence; `none` when the separator does not occur. -/
def splitFirstOn (sep : List Char) : List Char → Option (List Char × List Char)
  | [] => if sep.isEmpty then some ([], []) else none
  | c :: t =>
    if sep.isPrefixOf (c :: t) then some ([], (c :: t).drop sep.length)
    else
      match splitFirstOn sep t with
      | some (a, b) => some (c :: a, b)
      | none => none

/-- `strings.Trim x "\""`: remove all leading and trailing double quotes. -/
def trimQuotesL (l : List Char) : List Char :=
  ((l.dropWhile (fun c => c = '"')).reverse.dropWhile (fun c => c = '"')).reverse

/-- Dynamically-typed Go values stored in a variable set
(`map[string]interface{}`).  Floats enter the core only through `%v`
formatting and `int(f)` truncation, so `vFloat` carries the truncated
integer together with its `fmt.Sprintf("%v", f)` rendering; `vOther`
models any further type through its `%v` rendering and `%T` type name.
`json.Marshaler` values are not modelled. -/
inductive GoValue where
  | vStr (s : String)
  | vBytes (s : String)
  | vBool (b : Bool)
  | vInt (n : Int)
  | vFloat (num : Int) (printed : String)
  | vOther (printed : String) (typeName : String)
deriving DecidableEq

/-- `fmt.Sprintf("%v", value)` for the modelled values. -/
def goString : GoValue → String
  | .vStr s => s
  | .vBytes s => s
  | .vBool b => if b then "true" else "false"
  | .vInt n => toString n
  | .vFloat _ printed => printed
  | .vOther printed _ => printed

/-- `fmt.Sprintf("%T", value)` for the modelled values. -/
def goTypeName : GoValue → String
  | .vStr _ => "string"
  | .vBytes _ => "[]uint8"
  | .vBool _ => "bool"
  | .vInt _ => "int"
  | .vFloat _ _ => "float64"
  | .vOther _ tn => tn

/-- A Go variable set.  Go map iteration order is unspecified; the embedding
fixes the association-list order wherever the source ranges over the map. -/
abbrev VarMap := List (String × GoValue)

/-- Go map lookup (keys in a Go map are unique; first match). -/
def lookupVar (vars : VarMap) (name : String) : Option GoValue :=
  match vars with
  | [] => none
  | p :: t => if p.1 = name then some p.2 else lookupVar t name

/-- The two brace characters. -/
def isBrace (c : Char) : Bool := c = '\x7b' || c = '\x7d'

/-- Match the span regex `\x7b\x7b([^\x7b\x7d]+)\x7d\x7d` at a position:
open-open, a greedy non-empty brace-free body, close-close.  Returns the
body and the rest after the match. -/
def spanMatchAt : List Char → Option (List Char × List Char)
  | '\x7b' :: '\x7b' :: rest =>
    let inner := rest.takeWhile (fun ch => ¬ isBrace ch)
    let after := rest.drop inner.length
    if inner ≠ [] ∧ startsWith ['\x7d', '\x7d'] after then some (inner, after.drop 2)
    else none
  | _ => none

/-- Inner texts of all spans matched by the span regex, leftmost and
non-overlapping, in order.  Fuel as in `replaceAllAux`. -/
def findSpansF : Nat → List Char → List (List Char)
  | 0, _ => []
  | _ + 1, [] => []
  | fuel + 1, c :: t =>
    match spanMatchAt (c :: t) with
    | some (inner, rest) => inner :: findSpansF fuel rest
    | none => findSpansF fuel t

/-- `FindAllStringSubmatch` of the span regex: all span bodies. -/
def findSpans (s : List Char) : List (List Char) :=
  findSpansF (s.length + 1) s

/-- Structured template-processing errors.  Each constructor's `msg` is the
Go error text; `templateParse` elides the Go template parser's detail. -/
inductive ProcErr where
  | missingVariable (name : String)
  | templateParse
  | invalidExpr (detail : String)
  | condEval (detail : String)
  | nestedCond (detail : String)
  | maxNesting (limit : Nat)
  | fileRead (path : String)
  | fileReadRaw (resolved : String)
  | maxInclusion (limit : Nat)
  | stageFiles (e : ProcErr)
  | stageCond (e : ProcErr)
  | stageVars (e : ProcErr)
deriving DecidableEq

/-- The Go `Error()` string of each error. -/
def ProcErr.msg : ProcErr → String
  | .missingVariable n => "missing required variable: " ++ n
  | .templateParse => "error parsing template"
  | .invalidExpr d => "invalid expression: " ++ d
  | .condEval d => "error evaluating condition: " ++ d
  | .nestedCond d => "error processing nested conditional: " ++ d
  | .maxNesting l => "maximum conditional nesting depth reached (" ++ toString l ++ ")"
  | .fileRead p => "error reading file: " ++ p
  | .fileReadRaw r => "error reading file " ++ r
  | .maxInclusion l => "maximum inclusion depth reached (" ++ toString l ++ ")"
  | .stageFiles e => "error processing file inclusions: " ++ e.msg
  | .stageCond e => "error processing conditionals: " ++ e.msg
  | .stageVars e => "error processing variables: " ++ e.msg

/-- The skip test of `checkSimpleVars` / `ExtractVariables` (part_001 /
variable.go): span bodies that are inclusion or conditional fragments. -/
def dirSkip (name : List Char) : Bool :=
  startsWith "file ".data name || startsWith "if ".data name ||
  startsWith "else".data name || startsWith "endif".data name

/-- `checkSimpleVars` (part_001): the trimmed bodies of all variable spans,
in scan order and with repeats, that are neither directive fragments nor
bound in the variable set. -/
def checkSimpleVars (t : List Char) (vars : VarMap) : List String :=
  ((findSpans t).map (fun inner => String.mk (trimSpaceL inner))).filter
    (fun n => ¬ dirSkip n.data ∧ lookupVar vars n = none)

/-- The value-to-string coercion of `ProcessPrompt`'s replacement loop.
The `json.Marshaler` case of the Go switch is not modelled; the remaining
cases coincide with `fmt.Sprintf("%v", v)` on the modelled values. -/
def coerceValue : GoValue → String
  | .vStr s => s
  | .vBytes s => s
  | v => goString v

/-- The `\x7b\x7b`-pair as a list. -/
def openSpan : List Char := ['\x7b', '\x7b']

/-- The `\x7d\x7d`-pair as a list. -/
def closeSpan : List Char := ['\x7d', '\x7d']

/-- The literal placeholder text `\x7b\x7bname\x7d\x7d` built by
`fmt.Sprintf` in the replacement loop. -/
def spanOf (name : String) : List Char := openSpan ++ name.data ++ closeSpan

/-- `ProcessPrompt` (part_000 lines 25-74 = part_001 lines 173-222).
After the per-variable literal replacements, any remaining `\x7b\x7b` makes the
source re-parse the original template with Go's `text/template`.  Every
template that reaches that fallback in this development has only
bare-identifier actions, which Go's parser rejects as undefined functions,
so the fallback is modelled as a parse error. -/
def processPromptL (t : List Char) (vars : VarMap) : Except ProcErr (List Char) :=
  match checkSimpleVars t vars with
  | m :: _ => .error (.missingVariable m)
  | [] =>
    let r := vars.foldl (fun acc p => replaceAllL acc (spanOf p.1) (coerceValue p.2).data) t
    if containsSub r openSpan then .error .templateParse else .ok r

/-- The numbered placeholder `__ESCAPED_VAR_n__` of
`VariableProcessor.Process`. -/
def escPlaceholder (n : Nat) : List Char :=
  "__ESCAPED_VAR_".data ++ (toString n).data ++ "__".data

/-- The escape-hiding pass of `VariableProcessor.Process` — the Go regex
`\\\x7b\x7b([^\x7b\x7d]+)\x7d\x7d` is a backslash followed by a span match —
replacing each match by a numbered placeholder and recording the placeholder
together with the full matched text, in scan order (the source stores the
pairs in a Go map whose iteration order is unspecified; the restoration
below is order-insensitive for the inputs considered).  Fuel as in
`replaceAllAux`. -/
def hideEscapedF : Nat → List Char → Nat → List Char × List (List Char × List Char)
  | 0, s, _ => (s, [])
  | _ + 1, [], _ => ([], [])
  | fuel + 1, c :: t, n =>
    if c = '\\' then
      match spanMatchAt t with
      | some (inner, rest) =>
        let ph := escPlaceholder n
        let res := hideEscapedF fuel rest (n + 1)
        (ph ++ res.1, (ph, '\\' :: openSpan ++ inner ++ closeSpan) :: res.2)
      | none =>
        let res := hideEscapedF fuel t n
        (c :: res.1, res.2)
    else
      let res := hideEscapedF fuel t n
      (c :: res.1, res.2)

/-- The escape-hiding pass at its natural fuel. -/
def hideEscaped (s : List Char) (n : Nat) : List Char × List (List Char × List Char) :=
  hideEscapedF (s.length + 1) s n

/-- `strings.TrimPrefix x "\\"`: drop one leading backslash if present. -/
def dropMarker : List Char → List Char
  | '\\' :: t => t
  | t => t

/-- The restoration loop of `VariableProcessor.Process`: replace every
placeholder by its original text minus the escape marker. -/
def restoreEscaped (m : List (List Char × List Char)) (s : List Char) : List Char :=
  m.foldl (fun acc p => replaceAllL acc p.1 (dropMarker p.2)) s

/-- `VariableProcessor.Process` (variable.go lines 27-52): hide escaped
spans, substitute variables, restore the escaped spans without their
markers. -/
def variableProcess (vars : VarMap) (t : List Char) : Except ProcErr (List Char) :=
  let hm := hideEscaped t 0
  match processPromptL hm.1 vars with
  | .error e => .error e
  | .ok r => .ok (restoreEscaped hm.2 r)

/-- `ExtractVariables` (variable.go): trimmed span bodies that are not
directive fragments, first-seen order, de-duplicated. -/
def extractVariablesL (t : List Char) : List String :=
  (((findSpans t).map (fun inner => String.mk (trimSpaceL inner))).filter
    (fun n => ¬ dirSkip n.data)).eraseDups

/-- `ValidateVariables` (variable.go): extracted names absent from the
variable set. -/
def validateVariables (t : List Char) (vars : VarMap) : List String :=
  (extractVariablesL t).filter (fun n => lookupVar vars n = none)

/-- The bare-identifier truthiness switch of `EvaluateExpression`
(variable.go lines 163-179). -/
def goTruthy : GoValue → Bool
  | .vBool b => b
  | .vStr s => s ≠ ""
  | .vInt n => goString (.vInt n) ≠ "0"
  | .vFloat num printed => goString (.vFloat num printed) ≠ "0"
  | _ => true

/-- The right-hand-side resolution shared by the equality and inequality
branches of `EvaluateExpression`: quoted literal, then variable, then bare
literal; compares `fmt.Sprintf("%v", ...)` forms. -/
def evalRhsEq (vars : VarMap) (leftValue : GoValue) (rightValue : List Char) : Bool :=
  if startsWith ['"'] rightValue ∧ endsWith ['"'] rightValue then
    goString leftValue = String.mk (trimQuotesL rightValue)
  else
    match lookupVar vars (String.mk rightValue) with
    | some rv => goString leftValue = goString rv
    | none => goString leftValue = String.mk rightValue

/-- `EvaluateExpression` (variable.go lines 100-179). -/
def evaluateExpressionL (expr : List Char) (vars : VarMap) : Except ProcErr Bool :=
  if containsSub expr "==".data then
    match splitFirstOn "==".data expr with
    | none => .error (.invalidExpr (String.mk expr))
    | some (l, r) =>
      let leftVar := String.mk (trimSpaceL l)
      let rightValue := trimSpaceL r
      match lookupVar vars leftVar with
      | none => .ok false
      | some leftValue => .ok (evalRhsEq vars leftValue rightValue)
  else if containsSub expr "!=".data then
    match splitFirstOn "!=".data expr with
    | none => .error (.invalidExpr (String.mk expr))
    | some (l, r) =>
      let leftVar := String.mk (trimSpaceL l)
      let rightValue := trimSpaceL r
      match lookupVar vars leftVar with
      | none => .ok true
      | some leftValue => .ok (¬ evalRhsEq vars leftValue rightValue)
  else
    match lookupVar vars (String.mk (trimSpaceL expr)) with
    | some v => .ok (goTruthy v)
    | none => .ok false

/-- Lazy scan to the first `#endif`: the prefix before it and the rest
after it. -/
def findEndif : List Char → Option (List Char × List Char)
  | [] => none
  | c :: t =>
    if startsWith "#endif".data (c :: t) then some ([], (c :: t).drop 6)
    else
      match findEndif t with
      | some (a, r) => some (c :: a, r)
      | none => none

/-- The `#else` arm of the conditional regex
`#if\s+([^#]+?)\s+then\s+((?:.|\n)*?)(?:#else\s+((?:.|\n)*?))?#endif`:
at a text position, match `#else`, at least one `\s` (greedy, which only
shifts whitespace out of the lazy else-body), then the lazy else-body up to
the first `#endif`.  Returns the else-body and the rest after `#endif`. -/
def elseArmAt (t : List Char) : Option (List Char × List Char) :=
  if startsWith "#else".data t then
    let u := t.drop 5
    let w := u.takeWhile isRegexSpace
    if w = [] then none
    else
      match findEndif (u.drop w.length) with
      | some (g3, rest) => some (g3, rest)
      | none => none
  else none

/-- The lazy then-body scan of the conditional regex: starting right after
`then\s+`, extend the then-body one character at a time; at each position
the optional `#else` arm is tried first, then `#endif`.  Returns
(then-body, else-body — empty when the optional group did not take part,
rest after `#endif`). -/
def scanCondBody : List Char → Option (List Char × List Char × List Char)
  | [] => none
  | c :: t =>
    match elseArmAt (c :: t) with
    | some (g3, rest) => some ([], g3, rest)
    | none =>
      if startsWith "#endif".data (c :: t) then some ([], [], (c :: t).drop 6)
      else
        match scanCondBody t with
        | some (g2, g3, rest) => some (c :: g2, g3, rest)
        | none => none

/-- The condition region between `#if` and a `then` literal is accepted by
`\s+([^#]+?)\s+then` precisely when it is `#`-free (enforced by the caller's
scan), starts and ends with a regex whitespace character, and has at least
three characters (one for each of `\s+`, `[^#]+?`, `\s+`). -/
def condRegionOk (r : List Char) : Bool :=
  match r.head?, r.getLast? with
  | some a, some b => isRegexSpace a && isRegexSpace b && decide (3 ≤ r.length)
  | _, _ => false

/-- Backtracking search for the `\s+([^#]+?)\s+then\s+` part of the
conditional regex, directly after `#if`.  The first `then` literal whose
preceding region qualifies and which is followed by at least one `\s` wins
(the lazy `[^#]+?` commits to the earliest such split); a `#` before any
qualifying `then` makes the whole position fail, since neither `\s+` nor
`[^#]+?` can consume it.  Returns the raw condition region (the source
trims it) and the text after the greedy `\s+` following `then`. -/
def findThen (region : List Char) : List Char → Option (List Char × List Char)
  | [] => none
  | c :: t =>
    if c = '#' then none
    else
      if startsWith "then".data (c :: t) ∧ condRegionOk region then
        let u := t.drop 3
        let w := u.takeWhile isRegexSpace
        if w ≠ [] then some (region, u.drop w.length)
        else findThen (region ++ [c]) t
      else findThen (region ++ [c]) t

/-- One match of the compiled conditional regex at a text position: `#if`,
the backtracking condition/`then` search, then the lazy body scan.
Returns (trimmed condition, then-body, else-body, rest after the match). -/
def condMatchAt (s : List Char) : Option (List Char × List Char × List Char × List Char) :=
  if startsWith "#if".data s then
    match findThen [] (s.drop 3) with
    | some (pre, body) =>
      match scanCondBody body with
      | some (g2, g3, rest) => some (trimSpaceL pre, g2, g3, rest)
      | none => none
    | none => none
  else none

/-- `regexp.ReplaceAllStringFunc` for the conditional regex: leftmost
matches, each replaced through `f`, scanning resuming after the match.  The
fuel is set to the text length plus one by the caller; every match consumes
at least one character, so the fuel never runs out. -/
def condReplaceAll (f : List Char × List Char × List Char → List Char) :
    Nat → List Char → List Char
  | 0, s => s
  | _ + 1, [] => []
  | fuel + 1, c :: t =>
    match condMatchAt (c :: t) with
    | some (cond, g2, g3, rest) => f (cond, g2, g3) ++ condReplaceAll f fuel rest
    | none => c :: condReplaceAll f fuel t

/-- Leftmost occurrence of `marker` followed by at least one non-`\s`
character (the Go extraction regexes `MARKER:([^\s]+)`): the captured
non-whitespace run. -/
def findMarked (marker : List Char) : List Char → Option (List Char)
  | [] => none
  | c :: t =>
    if startsWith marker (c :: t) then
      let run := ((c :: t).drop marker.length).takeWhile (fun ch => ¬ isRegexSpace ch)
      if run ≠ [] then some run else findMarked marker t
    else findMarked marker t

/-- Leftmost occurrence of `marker` followed by at least one non-newline
character (the Go extraction regex `MARKER:(.+)` — `.` excludes `\n`):
the captured greedy non-newline run. -/
def findMarkedLine (marker : List Char) : List Char → Option (List Char)
  | [] => none
  | c :: t =>
    if startsWith marker (c :: t) then
      let run := ((c :: t).drop marker.length).takeWhile (fun ch => ch ≠ '\n')
      if run ≠ [] then some run else findMarkedLine marker t
    else findMarkedLine marker t

/-- The default `Template.MaxDepth`. -/
def maxDepthDefault : Nat := 10

/-- The condition-error placeholder marker of `processConditionals`. -/
def condErrMarker : List Char := "ERROR_EVALUATING_CONDITION:".data

/-- The nested-error placeholder marker of `processConditionals`. -/
def nestedErrMarker : List Char := "ERROR_PROCESSING_NESTED_CONDITIONAL:".data

/-- `Template.processConditionals` (part_001 lines 104-168), with the
recursion depth guard `depth > MaxDepth` recast as fuel
`MaxDepth + 1 - depth`: fuel 0 is exactly a depth of `MaxDepth + 1`. -/
def processCondAux (vars : VarMap) : Nat → List Char → Except ProcErr (List Char)
  | 0, _ => .error (.maxNesting maxDepthDefault)
  | fuel + 1, content =>
    let result := condReplaceAll (fun m =>
      match evaluateExpressionL m.1 vars with
      | .error _ => condErrMarker ++ m.1
      | .ok b =>
        let selected := if b then m.2.1 else m.2.2
        match processCondAux vars fuel selected with
        | .error e => nestedErrMarker ++ e.msg.data
        | .ok r => r) (content.length + 1) content
    if containsSub result condErrMarker then
      match findMarked condErrMarker result with
      | some d => .error (.condEval (String.mk d))
      | none =>
        if containsSub result nestedErrMarker then
          match findMarkedLine nestedErrMarker result with
          | some d => .error (.nestedCond (String.mk d))
          | none => .ok result
        else .ok result
    else
      if containsSub result nestedErrMarker then
        match findMarkedLine nestedErrMarker result with
        | some d => .error (.nestedCond (String.mk d))
        | none => .ok result
      else .ok result

/-- `processConditionals(content, 0)` as called from `Template.Process`. -/
def processConditionalsL (vars : VarMap) (content : List Char) :
    Except ProcErr (List Char) :=
  processCondAux vars (maxDepthDefault + 1) content

/-- Split a path on `/` into components (including empty ones). -/
def splitSlash : List Char → List (List Char)
  | [] => [[]]
  | c :: t =>
    if c = '/' then [] :: splitSlash t
    else
      match splitSlash t with
      | [] => [[c]]
      | h :: r => (c :: h) :: r

/-- One step of `filepath.Clean`'s element processing: skip empty and `.`
elements; `..` pops the last kept element unless the stack is empty or ends
in `..`, in which case it is dropped when rooted and kept otherwise. -/
def cleanStep (rooted : Bool) (stack : List (List Char)) (comp : List Char) :
    List (List Char) :=
  if comp = [] ∨ comp = ['.'] then stack
  else if comp = ['.', '.'] then
    match stack.getLast? with
    | some l => if l = ['.', '.'] then stack ++ [comp] else stack.dropLast
    | none => if rooted then stack else [comp]
  else stack ++ [comp]

/-- `filepath.Clean` for `/`-separated paths (lexical processing only). -/
def goClean (p : String) : String :=
  if p = "" then "."
  else
    let rooted := p.data.head? = some '/'
    let comps := splitSlash p.data
    let kept := comps.foldl (cleanStep rooted) []
    let body := String.mk (List.intercalate ['/'] kept)
    if rooted then "/" ++ body
    else if body = "" then "." else body

/-- `filepath.Join(a, b)`: empty elements are skipped, the rest joined with
`/` and cleaned; all-empty input yields the empty string uncleaned. -/
def goJoin (a b : String) : String :=
  if a = "" ∧ b = "" then ""
  else if a = "" then goClean b
  else if b = "" then goClean a
  else goClean (a ++ "/" ++ b)

/-- `filepath.IsAbs` on unix: the path starts with `/`. -/
def isAbsPath (p : String) : Bool := p.data.head? = some '/'

/-- The per-instance state of a `FileProcessor`, extended with the list of
paths passed to `os.ReadFile` so far (ghost state used to observe
filesystem access; the source does not record it). -/
structure FPState where
  baseDir : String
  maxDepth : Nat
  currentDepth : Nat
  cache : List (String × String)
  reads : List String
deriving DecidableEq

/-- `NewFileProcessor(baseDir)`. -/
def initFP (baseDir : String) : FPState :=
  { baseDir := baseDir, maxDepth := 10, currentDepth := 0, cache := [], reads := [] }

/-- A filesystem, indexed by the number of reads performed so far, so that a
file may change between two reads within one call; `none` is a read error. -/
abbrev Fs := Nat → String → Option String

/-- Go map assignment on the association-list cache: overwrite the first
binding of the key, or append. -/
def cacheInsert (cache : List (String × String)) (k v : String) :
    List (String × String) :=
  match cache with
  | [] => [(k, v)]
  | p :: t => if p.1 = k then (k, v) :: t else p :: cacheInsert t k v

/-- Go map lookup on the cache. -/
def cacheFind (cache : List (String × String)) (k : String) : Option String :=
  match cache with
  | [] => none
  | p :: t => if p.1 = k then some p.2 else cacheFind t k

/-- The `ERROR_READING_FILE:` placeholder marker of `FileProcessor.Process`. -/
def fileErrMarker : List Char := "ERROR_READING_FILE:".data

/-- Match the legacy inclusion regex `\x7b\x7bfile\s+"([^"]+)"\x7d\x7d` at a
position: returns the quoted path and the rest after the match. -/
def legacyMatchAt (s : List Char) : Option (String × List Char) :=
  if startsWith ("\x7b\x7bfile".data) s then
    let u := s.drop 6
    let w := u.takeWhile isRegexSpace
    if w = [] then none
    else
      match u.drop w.length with
      | '"' :: v =>
        let inner := v.takeWhile (fun ch => ch ≠ '"')
        let after := v.drop inner.length
        if inner ≠ [] ∧ startsWith ('"' :: closeSpan) after then
          some (String.mk inner, after.drop 3)
        else none
      | _ => none
  else none

/-- Match the inclusion regex `#include\s+"([^"]+)"` at a position. -/
def includeMatchAt (s : List Char) : Option (String × List Char) :=
  if startsWith "#include".data s then
    let u := s.drop 8
    let w := u.takeWhile isRegexSpace
    if w = [] then none
    else
      match u.drop w.length with
      | '"' :: v =>
        let inner := v.takeWhile (fun ch => ch ≠ '"')
        let after := v.drop inner.length
        if inner ≠ [] ∧ startsWith ['"'] after then
          some (String.mk inner, after.drop 1)
        else none
      | _ => none
  else none

/-- `regexp.ReplaceAllStringFunc` over an inclusion pattern with the
stateful `includeFile` closure: successful inclusions substitute the file
content, failed ones substitute `ERROR_READING_FILE:` plus the literal path.
Fuel is the text length plus one, never exhausted since a match consumes at
least one character. -/
def fpScan (matchAt : List Char → Option (String × List Char))
    (resolve : FPState → String → Except ProcErr (List Char) × FPState) :
    Nat → FPState → List Char → List Char × FPState
  | 0, st, s => (s, st)
  | _ + 1, st, [] => ([], st)
  | fuel + 1, st, c :: t =>
    match matchAt (c :: t) with
    | some (path, rest) =>
      let r := resolve st path
      match r.1 with
      | .ok content =>
        let nxt := fpScan matchAt resolve fuel r.2 rest
        (content ++ nxt.1, nxt.2)
      | .error _ =>
        let nxt := fpScan matchAt resolve fuel r.2 rest
        (fileErrMarker ++ path.data ++ nxt.1, nxt.2)
    | none =>
      let nxt := fpScan matchAt resolve fuel st t
      (c :: nxt.1, nxt.2)

/-- `FileProcessor.Process` (template package): the legacy pass, the
`#include` pass over its output, then the error-placeholder check with the
extraction regex `ERROR_READING_FILE:([^\s]+)`. -/
def fpProcessStep
    (resolve : FPState → String → Except ProcErr (List Char) × FPState)
    (st : FPState) (text : List Char) : Except ProcErr (List Char) × FPState :=
  let p1 := fpScan legacyMatchAt resolve (text.length + 1) st text
  let p2 := fpScan includeMatchAt resolve (p1.1.length + 1) p1.2 p1.1
  if containsSub p2.1 fileErrMarker then
    match findMarked fileErrMarker p2.1 with
    | some tok => (.error (.fileRead (String.mk tok)), p2.2)
    | none => (.ok p2.1, p2.2)
  else (.ok p2.1, p2.2)

/-- `FileProcessor.includeFile`: depth guard, cache lookup under the literal
path, relative-path resolution (reassigning the path variable), read,
recursive `Process` of the content with the depth raised, then caching the
result under the now-resolved path.  Fuel models the recursion; the top
caller passes `MaxDepth + 1`, which the depth guard keeps from exhausting. -/
def fpIncludeF (fs : Fs) : Nat → FPState → String → Except ProcErr (List Char) × FPState
  | 0, st, _ => (.error (.maxInclusion st.maxDepth), st)
  | f + 1, st, path =>
    if st.maxDepth ≤ st.currentDepth then (.error (.maxInclusion st.maxDepth), st)
    else
      match cacheFind st.cache path with
      | some content => (.ok content.data, st)
      | none =>
        let resolved := if isAbsPath path then path else goJoin st.baseDir path
        match fs st.reads.length resolved with
        | none =>
          (.error (.fileReadRaw resolved), { st with reads := st.reads ++ [resolved] })
        | some content =>
          let st1 := { st with reads := st.reads ++ [resolved],
                               currentDepth := st.currentDepth + 1 }
          let pr := fpProcessStep (fpIncludeF fs f) st1 content.data
          let st2 := { pr.2 with currentDepth := pr.2.currentDepth - 1 }
          match pr.1 with
          | .error e => (.error e, st2)
          | .ok processed =>
            (.ok processed,
             { st2 with cache := cacheInsert st2.cache resolved (String.mk processed) })

/-- `FileProcessor.Process` with the inclusion fuel for one top-level call. -/
def fpProcessF (fs : Fs) (st : FPState) (text : List Char) :
    Except ProcErr (List Char) × FPState :=
  fpProcessStep (fpIncludeF fs (maxDepthDefault + 1)) st text

/-- Collect the capture of every match of an inclusion pattern
(`FindAllStringSubmatch`), in order, with repeats.  Fuel as in `fpScan`. -/
def collectMatches (matchAt : List Char → Option (String × List Char)) :
    Nat → List Char → List String
  | 0, _ => []
  | _ + 1, [] => []
  | fuel + 1, c :: t =>
    match matchAt (c :: t) with
    | some (path, rest) => path :: collectMatches matchAt fuel rest
    | none => collectMatches matchAt fuel t

/-- `ExtractFileInclusions`: legacy-syntax paths then `#include` paths,
first-seen order, de-duplicated across both passes. -/
def extractFileInclusionsL (t : List Char) : List String :=
  (collectMatches legacyMatchAt (t.length + 1) t ++
   collectMatches includeMatchAt (t.length + 1) t).eraseDups

/-- `ValidateFileInclusions`: extracted paths whose resolved form does not
exist (existence checked on the filesystem at read-count zero). -/
def validateFileInclusionsL (fs : Fs) (baseDir : String) (t : List Char) :
    List String :=
  (extractFileInclusionsL t).filter (fun path =>
    (fs 0 (if isAbsPath path then path else goJoin baseDir path)).isNone)

/-- `Template.Process` (part_001 lines 80-100): file inclusions, then
conditionals from depth 0, then variable substitution, each stage's error
wrapped.  Returns the result together with the file processor's final
state (whose `reads` field is the observation of filesystem access). -/
def templateProcess (fs : Fs) (baseDir : String) (vars : VarMap)
    (content : String) : Except ProcErr String × FPState :=
  let s1 := fpProcessF fs (initFP baseDir) content.data
  match s1.1 with
  | .error e => (.error (.stageFiles e), s1.2)
  | .ok withFiles =>
    match processConditionalsL vars withFiles with
    | .error e => (.error (.stageCond e), s1.2)
    | .ok withConds =>
      match variableProcess vars withConds with
      | .error e => (.error (.stageVars e), s1.2)
      | .ok r => (.ok (String.mk r), s1.2)

/-- `Template.Validate` (part_001 lines 61-77): missing variables first (in
first-seen order), then missing files (in first-seen order). -/
def templateValidate (fs : Fs) (baseDir : String) (vars : VarMap)
    (content : String) : List String :=
  (validateVariables content.data vars).map (fun v => "missing variable: " ++ v) ++
  (validateFileInclusionsL fs baseDir content.data).map (fun f => "missing file: " ++ f)

/-- Go's `regexp.Compile` / `MatchString`, an external collaborator of the
assertion engine, modelled as a parameter: either a compile-error message or
a total match predicate. -/
structure RegexEngine where
  compile : String → Except String (String → Bool)

/-- Go's `json.Unmarshal` validity check, an external collaborator of the
assertion engine, modelled as a parameter: a parse-error message or
success. -/
structure JsonEngine where
  parse : String → Except String Unit

/-- An assertion record (`assertutil.Assertion`): Go's `AssertionType` is a
string type, so unknown kinds are representable. -/
structure Assertion where
  type : String
  value : GoValue
  path : String
deriving DecidableEq

/-- `assertutil.AssertionResult`. -/
structure AssertionResult where
  assertion : Assertion
  success : Bool
  reason : String
  expected : String
  actual : String
deriving DecidableEq

/-- `assertutil.toString`: the string/[]byte/`fmt.Stringer`/default switch.
`fmt.Stringer` values are not modelled; every case returns `true`. -/
def assertToString (v : GoValue) : String × Bool :=
  match v with
  | .vStr s => (s, true)
  | .vBytes s => (s, true)
  | v => (goString v, true)

/-- `fmt.Sscanf(s, "%d", ...)`: skip leading spaces, optional sign, at
least one digit; trailing text is ignored.  Overflow of Go's `int` is not
modelled (no input in this development approaches it). -/
def sscanfInt (l : List Char) : Option Int :=
  let t := l.dropWhile isGoSpace
  match t with
  | '-' :: d =>
    let digits := d.takeWhile (fun c => c.isDigit)
    if digits = [] then none
    else some (-(digits.foldl (fun acc c => acc * 10 + (c.toNat - 48)) 0 : Int))
  | '+' :: d =>
    let digits := d.takeWhile (fun c => c.isDigit)
    if digits = [] then none
    else some ((digits.foldl (fun acc c => acc * 10 + (c.toNat - 48)) 0 : Int))
  | d =>
    let digits := d.takeWhile (fun c => c.isDigit)
    if digits = [] then none
    else some ((digits.foldl (fun acc c => acc * 10 + (c.toNat - 48)) 0 : Int))

/-- `checkLengthComparison` (assertutil.go lines 253-322).  The source
ignores every `Sscanf` error in the operator-prefixed branches, leaving the
expected length at its zero value; only the no-prefix branch checks the
parse error. -/
def checkLengthComparisonL (comparison : String) (actualLen : Int) :
    Bool × String :=
  let cmp := trimSpaceL comparison.data
  let cmpS := String.mk cmp
  if startsWith ">=".data cmp then
    let n := (sscanfInt (cmp.drop 2)).getD 0
    if actualLen ≥ n then (true, "")
    else (false, "output length " ++ toString actualLen ++ " is not >= " ++ toString n)
  else if startsWith "<=".data cmp then
    let n := (sscanfInt (cmp.drop 2)).getD 0
    if actualLen ≤ n then (true, "")
    else (false, "output length " ++ toString actualLen ++ " is not <= " ++ toString n)
  else if startsWith ">".data cmp then
    let n := (sscanfInt (cmp.drop 1)).getD 0
    if actualLen > n then (true, "")
    else (false, "output length " ++ toString actualLen ++ " is not > " ++ toString n)
  else if startsWith "<".data cmp then
    let n := (sscanfInt (cmp.drop 1)).getD 0
    if actualLen < n then (true, "")
    else (false, "output length " ++ toString actualLen ++ " is not < " ++ toString n)
  else if startsWith "==".data cmp then
    let n := (sscanfInt (cmp.drop 2)).getD 0
    if actualLen = n then (true, "")
    else (false, "output length " ++ toString actualLen ++ " does not equal " ++ toString n)
  else if startsWith "=".data cmp then
    let n := (sscanfInt (cmp.drop 1)).getD 0
    if actualLen = n then (true, "")
    else (false, "output length " ++ toString actualLen ++ " does not equal " ++ toString n)
  else
    match sscanfInt cmp with
    | some n =>
      if actualLen = n then (true, "")
      else (false, "output length " ++ toString actualLen ++ " does not equal " ++ toString n)
    | none => (false, "invalid length comparison: " ++ cmpS)

/-- The final backfill of `Assertion.Check`: a fixed success string when no
more specific reason was set. -/
def backfillReason (r : AssertionResult) : AssertionResult :=
  if r.success ∧ r.reason = "" then { r with reason := "Assertion passed" } else r

/-- `Assertion.Check` (assertutil.go lines 57-163), parameterized over the
regexp and JSON collaborators.  Go `len` is byte length; outputs considered
here are ASCII, where it equals the character count. -/
def assertCheck (re : RegexEngine) (js : JsonEngine) (a : Assertion)
    (output : String) : AssertionResult :=
  let base : AssertionResult :=
    { assertion := a, success := false, reason := "", expected := "", actual := output }
  let conv := assertToString a.value
  if ¬ conv.2 ∧ a.type ≠ "length" then
    { base with success := false,
                reason := "assertion value must be a string, got " ++ goTypeName a.value }
  else
    let expectedStr := conv.1
    let r := { base with expected := expectedStr }
    backfillReason
      (if a.type = "contains" then
        if containsSub output.data expectedStr.data then { r with success := true }
        else { r with success := false,
                      reason := "output does not contain expected string: " ++ expectedStr }
      else if a.type = "not-contains" then
        if containsSub output.data expectedStr.data then
          { r with success := false,
                   reason := "output contains string that should not be present: " ++ expectedStr }
        else { r with success := true }
      else if a.type = "equals" then
        if output = expectedStr then { r with success := true }
        else { r with success := false, reason := "output does not match expected string" }
      else if a.type = "regex" then
        match re.compile expectedStr with
        | .error e =>
          { r with success := false, reason := "invalid regex pattern: " ++ e }
        | .ok matcher =>
          if matcher output then { r with success := true }
          else { r with success := false,
                        reason := "output does not match regex pattern: " ++ expectedStr }
      else if a.type = "starts-with" then
        if startsWith expectedStr.data output.data then { r with success := true }
        else { r with success := false,
                      reason := "output does not start with: " ++ expectedStr }
      else if a.type = "ends-with" then
        if endsWith expectedStr.data output.data then { r with success := true }
        else { r with success := false,
                      reason := "output does not end with: " ++ expectedStr }
      else if a.type = "json" then
        match js.parse output with
        | .error e =>
          { r with success := false, reason := "output is not valid JSON: " ++ e }
        | .ok _ =>
          { r with success := true, reason := "JSON assertion not fully implemented yet" }
      else if a.type = "length" then
        match a.value with
        | .vFloat num _ =>
          if (output.length : Int) = num then { r with success := true }
          else { r with success := false,
                        reason := "output length " ++ toString output.length ++
                                  " does not match expected length " ++ toString num }
        | .vStr s =>
          let lc := checkLengthComparisonL s (output.length : Int)
          { r with success := lc.1, reason := lc.2 }
        | v =>
          { r with success := false,
                   reason := "length value must be a number or comparison string, got " ++
                             goTypeName v }
      else
        { r with success := false, reason := "unknown assertion type: " ++ a.type })

/-- `assertutil.CheckAll`. -/
def assertCheckAll (re : RegexEngine) (js : JsonEngine) (output : String)
    (assertions : List Assertion) : List AssertionResult :=
  assertions.map (fun a => assertCheck re js a output)

/-- `assertutil.AllPassed`. -/
def allPassed (results : List AssertionResult) : Bool :=
  results.all (fun r => r.success)

/-! ### Concrete fixtures used by the claim theorems -/

/-- An empty filesystem. -/
def fsEmpty : Fs := fun _ _ => none

/-- A filesystem with one file `/b/p` holding `C`. -/
def fsOneP : Fs := fun _ p => if p = "/b/p" then some "C" else none

/-- A filesystem in which `/b/a.txt` holds `old` before the first read and
`new` afterwards. -/
def fsChanging : Fs := fun t p =>
  if p = "/b/a.txt" then (if t = 0 then some "old" else some "new") else none

/-- A regex engine that rejects every pattern (the engine is irrelevant to
the claims below; any would do). -/
def failRegexEngine : RegexEngine := { compile := fun _ => .error "pattern error" }

/-- A JSON engine that rejects every document. -/
def failJsonEngine : JsonEngine := { parse := fun _ => .error "parse error" }

/-- The claim's bare-truthiness table, written from the spec's words: a
bound boolean is its own value; a bound string is true iff non-empty; a
bound numeric value is true iff its default string form is not `"0"`; any
other bound value is true; an unbound identifier is false. -/
def specBareTruthy : Option GoValue → Bool
  | none => false
  | some (.vBool b) => b
  | some (.vStr s) => s ≠ ""
  | some (.vInt n) => goString (.vInt n) ≠ "0"
  | some (.vFloat num printed) => goString (.vFloat num printed) ≠ "0"
  | some _ => true

/-- The eight assertion kinds of the `Assertion.Check` switch. -/
def knownAssertionTypes : List String :=
  ["contains", "not-contains", "equals", "regex", "starts-with", "ends-with",
   "json", "length"]

/-! ### Claim theorems -/

/-- C3: the spec claims `Process("#if a then X #if b then Y #endif #endif",
\x7ba:true, b:false\x7d)` returns `"X  "`.  The lazy conditional regex ends the
outer match at the *first* `#endif`, so the code actually returns
`"X #if b then Y  #endif"`, leaving `#if`/`#endif` text in the output — in
direct contradiction with the repository's own nested-conditional tests. -/
theorem c3_nested_conditional_eval :
    (templateProcess fsEmpty "/b"
        [("a", GoValue.vBool true), ("b", GoValue.vBool false)]
        "#if a then X #if b then Y #endif #endif").1
      = .ok "X #if b then Y  #endif" ∧
    (templateProcess fsEmpty "/b"
        [("a", GoValue.vBool true), ("b", GoValue.vBool false)]
        "#if a then X #if b then Y #endif #endif").1
      ≠ .ok "X  " := by
  constructor
  · rfl
  · decide

/-- C5: processing `"Hello, \x7b\x7bname\x7d\x7d!"` with an empty variable set fails
with the missing-variable error naming exactly `name` (wrapped by the
variable-processing stage), and `Validate` on the same template returns
exactly `["missing variable: name"]`. -/
theorem c5_missing_variable :
    (templateProcess fsEmpty "/b" [] "Hello, \x7b\x7bname\x7d\x7d!").1
      = .error (.stageVars (.missingVariable "name")) ∧
    ProcErr.msg (.stageVars (.missingVariable "name"))
      = "error processing variables: missing required variable: name" ∧
    templateValidate fsEmpty "/b" [] "Hello, \x7b\x7bname\x7d\x7d!"
      = ["missing variable: name"] := by
  refine ⟨by rfl, by rfl, by rfl⟩

/-- C1 counterexample: on the escaped inclusion directive
`\\\x7b\x7bfile "p"\x7d\x7d` the claim predicts a literal `\x7b\x7bfile "p"\x7d\x7d` output and no
filesystem read; the code's file-inclusion stage runs before any escape
handling, reads `/b/p`, and outputs the marker followed by the file's
content. -/
theorem c1_counterexample :
    (templateProcess fsOneP "/b" [] "\\\x7b\x7bfile \"p\"\x7d\x7d").1 = .ok "\\C" ∧
    (templateProcess fsOneP "/b" [] "\\\x7b\x7bfile \"p\"\x7d\x7d").2.reads = ["/b/p"] ∧
    (templateProcess fsOneP "/b" [] "\\\x7b\x7bfile \"p\"\x7d\x7d").1
      ≠ .ok "\x7b\x7bfile \"p\"\x7d\x7d" := by
  refine ⟨by rfl, by rfl, by decide⟩

/-- C1 as amended: escape protection lives only in the variable-substitution
stage.  An escaped variable directive survives the whole pipeline with the
marker stripped (the spec's own round-trip example), while an escaped
inclusion directive is interpreted by the file-inclusion stage, which reads
the named file. -/
theorem c1_escape_scope :
    (templateProcess fsEmpty "/b" [("name", GoValue.vStr "World")]
        "Literal \x7b\x7bname\x7d\x7d and \\\x7b\x7bname\x7d\x7d").1
      = .ok "Literal World and \x7b\x7bname\x7d\x7d" ∧
    (templateProcess fsEmpty "/b" [("name", GoValue.vStr "World")]
        "Literal \x7b\x7bname\x7d\x7d and \\\x7b\x7bname\x7d\x7d").2.reads = [] ∧
    (templateProcess fsOneP "/b" [] "\\\x7b\x7bfile \"p\"\x7d\x7d").1 = .ok "\\C" ∧
    (templateProcess fsOneP "/b" [] "\\\x7b\x7bfile \"p\"\x7d\x7d").2.reads = ["/b/p"] := by
  refine ⟨by rfl, by rfl, by rfl, by rfl⟩

/-- C2 counterexample: the claim predicts that a resolved value containing
`\x7b\x7b` is inserted verbatim; in the code any remaining `\x7b\x7b` after replacement
sends the *original* template back through Go's `text/template` parser,
which rejects the bare identifier, so `ProcessPrompt` fails instead of
returning `"Hello, \x7b\x7bx\x7d\x7d!"`. -/
theorem c2_counterexample :
    processPromptL "Hello, \x7b\x7bname\x7d\x7d!".data
        [("name", GoValue.vStr "\x7b\x7bx\x7d\x7d")]
      = .error .templateParse ∧
    processPromptL "Hello, \x7b\x7bname\x7d\x7d!".data
        [("name", GoValue.vStr "\x7b\x7bx\x7d\x7d")]
      ≠ .ok "Hello, \x7b\x7bx\x7d\x7d!".data := by
  refine ⟨by rfl, by decide⟩

/-- C4 counterexample: for a *relative* inclusion path the cache is written
under the resolved path but probed under the literal path, so the second
reference to the same literal path re-reads the filesystem and observes the
changed content — against the claim's «cached, not updated, content both
times» and «without re-reading». -/
theorem c4_counterexample :
    (templateProcess fsChanging "/b" []
        "#include \"a.txt\" and #include \"a.txt\"").1 = .ok "old and new" ∧
    (templateProcess fsChanging "/b" []
        "#include \"a.txt\" and #include \"a.txt\"").2.reads
      = ["/b/a.txt", "/b/a.txt"] ∧
    (templateProcess fsChanging "/b" []
        "#include \"a.txt\" and #include \"a.txt\"").1 ≠ .ok "old and old" := by
  refine ⟨by rfl, by rfl, by decide⟩

/-- C4 as amended: the resolved content is cached under the *resolved* path,
and a later reference is served from the cache without any filesystem read
exactly when the probe key — the literal directive path — already has a
cache binding (so for absolute paths, which resolve to themselves). -/
theorem c4_cache_hit (fs : Fs) (f : Nat) (st : FPState) (p c : String)
    (hdepth : st.currentDepth < st.maxDepth)
    (hcache : cacheFind st.cache p = some c) :
    fpIncludeF fs (f + 1) st p = (.ok c.data, st) := by
  unfold fpIncludeF
  rw [if_neg (by omega), hcache]

/-- C4 witness: a concrete cache hit. -/
theorem c4_cache_hit_witness :
    (initFP "/b").currentDepth < (initFP "/b").maxDepth ∧
    cacheFind ({ initFP "/b" with cache := [("/b/a.txt", "old")] }).cache "/b/a.txt"
      = some "old" ∧
    fpIncludeF fsChanging 1 { initFP "/b" with cache := [("/b/a.txt", "old")] }
        "/b/a.txt"
      = (.ok "old".data, { initFP "/b" with cache := [("/b/a.txt", "old")] }) :=
  ⟨by decide, by rfl,
   c4_cache_hit fsChanging 0 _ "/b/a.txt" "old" (by decide) (by rfl)⟩

/-- C7: in an expression dispatched to the equality branch (it contains
`==`; that branch is checked first) whose trimmed left-hand side — the text
before the first `==` — is not bound, `Evaluate` returns `false` with no
error, before ever looking at the right-hand side; and in an expression
dispatched to the inequality branch (no `==`, contains `!=`) with an
unbound trimmed left-hand side it returns `true` with no error. -/
theorem c7_unbound_left_comparison :
    (∀ (e : List Char) (vars : VarMap) (l r : List Char),
      containsSub e "==".data = true →
      splitFirstOn "==".data e = some (l, r) →
      lookupVar vars (String.mk (trimSpaceL l)) = none →
      evaluateExpressionL e vars = .ok false) ∧
    (∀ (e : List Char) (vars : VarMap) (l r : List Char),
      containsSub e "==".data = false →
      containsSub e "!=".data = true →
      splitFirstOn "!=".data e = some (l, r) →
      lookupVar vars (String.mk (trimSpaceL l)) = none →
      evaluateExpressionL e vars = .ok true) := by
  constructor
  · intro e vars l r hc hs hl
    simp [evaluateExpressionL, hc, hs, hl]
  · intro e vars l r hc hne hs hl
    simp [evaluateExpressionL, hc, hne, hs, hl]

/-- C7 witness: `u == 5` evaluates to `false` and `u != 5` to `true` under
the empty variable set. -/
theorem c7_unbound_left_comparison_witness :
    evaluateExpressionL "u == 5".data [] = .ok false ∧
    evaluateExpressionL "u != 5".data [] = .ok true :=
  ⟨c7_unbound_left_comparison.1 "u == 5".data [] "u ".data " 5".data
      (by decide) (by decide) (by rfl),
   c7_unbound_left_comparison.2 "u != 5".data [] "u ".data " 5".data
      (by decide) (by decide) (by decide) (by rfl)⟩

/-- C8: a bare-identifier conditional expression (no `==` or `!=`) evaluates
to the claim's truthiness of the trimmed identifier's binding, with no
error; in particular a float zero whose `%v` form is written `"0.0"` is
truthy (the string-form test does not catch it). -/
theorem c8_bare_truthiness :
    (∀ (e : List Char) (vars : VarMap),
      containsSub e "==".data = false →
      containsSub e "!=".data = false →
      evaluateExpressionL e vars
        = .ok (specBareTruthy (lookupVar vars (String.mk (trimSpaceL e))))) ∧
    specBareTruthy (some (.vFloat 0 "0.0")) = true := by
  constructor
  · intro e vars h1 h2
    unfold evaluateExpressionL
    rw [if_neg (by simp [h1]), if_neg (by simp [h2])]
    cases h : lookupVar vars (String.mk (trimSpaceL e)) with
    | none => simp [specBareTruthy]
    | some v => cases v <;> simp [specBareTruthy, goTruthy]
  · decide

/-- C8 witness: concrete bare-identifier evaluations — a non-empty string is
truthy, a zero int is falsy, a float printed `"0.0"` is truthy, and an
unbound identifier is falsy. -/
theorem c8_bare_truthiness_witness :
    evaluateExpressionL "s".data [("s", GoValue.vStr "x")] = .ok true ∧
    evaluateExpressionL "z".data [("z", GoValue.vInt 0)] = .ok false ∧
    evaluateExpressionL "f".data [("f", GoValue.vFloat 0 "0.0")] = .ok true ∧
    evaluateExpressionL "missing".data [] = .ok false :=
  ⟨c8_bare_truthiness.1 "s".data [("s", GoValue.vStr "x")] (by decide) (by decide),
   c8_bare_truthiness.1 "z".data [("z", GoValue.vInt 0)] (by decide) (by decide),
   c8_bare_truthiness.1 "f".data [("f", GoValue.vFloat 0 "0.0")] (by decide) (by decide),
   c8_bare_truthiness.1 "missing".data [] (by decide) (by decide)⟩

/-- A string with a non-empty left part is non-empty after append. -/
theorem strAppend_ne_empty {x : String} (y : String) (h : x.data ≠ []) :
    x ++ y ≠ "" := by
  intro hc
  have hd := congrArg String.data hc
  simp only [String.data_append] at hd
  exact h (List.append_eq_nil.mp hd).1

/-- `backfillReason` yields a non-empty reason whenever the result succeeded
or already carried a reason. -/
theorem backfill_reason_ne {r : AssertionResult}
    (h : r.success = true ∨ r.reason ≠ "") : (backfillReason r).reason ≠ "" := by
  unfold backfillReason
  split
  · show ("Assertion passed" : String) ≠ ""
    decide
  next hn =>
    rcases h with hs | hr
    · rcases Decidable.em (r.reason = "") with he | he
      · exact absurd ⟨hs, he⟩ hn
      · exact he
    · exact hr

/-- Append preserves a non-empty underlying list. -/
theorem strAppend_data_ne {x : String} (y : String) (h : x.data ≠ []) :
    (x ++ y).data ≠ [] := by
  simp only [String.data_append]
  intro hc
  exact h (List.append_eq_nil.mp hc).1

/-- A four-part append with a non-empty head is non-empty. -/
theorem lenFourApp_ne (a b c d : String) (ha : a.data ≠ []) :
    a ++ b ++ c ++ d ≠ "" :=
  strAppend_ne_empty d (strAppend_data_ne c (strAppend_data_ne b ha))

/-- Every failing result of `checkLengthComparison` carries a non-empty
reason. -/
theorem checkLength_false_reason_ne {s : String} {len : Int} {reason : String}
    (h : checkLengthComparisonL s len = (false, reason)) : reason ≠ "" := by
  unfold checkLengthComparisonL at h
  dsimp only at h
  repeat' split at h
  all_goals
    first
    | (injection h with h1 h2; exact Bool.noConfusion h1)
    | (injection h with h1 h2; exact h2 ▸ lenFourApp_ne _ _ _ _ (by decide))
    | (injection h with h1 h2; exact h2 ▸ strAppend_ne_empty _ (by decide))

/-- `backfillReason` never changes the success flag. -/
theorem backfill_success (r : AssertionResult) :
    (backfillReason r).success = r.success := by
  unfold backfillReason
  split <;> rfl

/-- C9 counterexample: the claim says every malformed comparison string —
one whose numeric part does not parse — fails with a descriptive reason;
but for a *recognized operator prefix* the source ignores the `Sscanf`
error, leaving the expected length at zero, so `">abc"` against the output
`"x"` *succeeds* (1 > 0) with the generic success reason. -/
theorem c9_counterexample :
    (assertCheck failRegexEngine failJsonEngine
        { type := "length", value := GoValue.vStr ">abc", path := "" } "x").success
      = true ∧
    (assertCheck failRegexEngine failJsonEngine
        { type := "length", value := GoValue.vStr ">abc", path := "" } "x").reason
      = "Assertion passed" := by
  refine ⟨by rfl, by rfl⟩

set_option maxHeartbeats 1000000 in
/-- C9 as amended: with a recognized operator prefix whose remainder parses
as an integer `N`, `Check` succeeds iff the output length stands in that
relation to `N`; with no recognized prefix, a bare integer defaults to exact
equality and a non-parsing string fails with the descriptive
`invalid length comparison` reason; but with a recognized operator prefix
whose remainder does *not* parse, the `Sscanf` error is ignored and the
comparison is made against zero instead of failing. -/
theorem c9_length_comparisons :
    (∀ (re : RegexEngine) (js : JsonEngine) (s out : String),
      (assertCheck re js { type := "length", value := GoValue.vStr s, path := "" } out).success
        = (checkLengthComparisonL s (out.length : Int)).1) ∧
    (∀ (d : List Char) (n len : Int),
      trimSpaceL ('>' :: '=' :: d) = '>' :: '=' :: d → sscanfInt d = some n →
      (checkLengthComparisonL (String.mk ('>' :: '=' :: d)) len).1 = decide (len ≥ n)) ∧
    (∀ (d : List Char) (n len : Int),
      trimSpaceL ('<' :: '=' :: d) = '<' :: '=' :: d → sscanfInt d = some n →
      (checkLengthComparisonL (String.mk ('<' :: '=' :: d)) len).1 = decide (len ≤ n)) ∧
    (∀ (d : List Char) (n len : Int),
      trimSpaceL ('>' :: d) = '>' :: d → startsWith "=".data d = false →
      sscanfInt d = some n →
      (checkLengthComparisonL (String.mk ('>' :: d)) len).1 = decide (len > n)) ∧
    (∀ (d : List Char) (n len : Int),
      trimSpaceL ('<' :: d) = '<' :: d → startsWith "=".data d = false →
      sscanfInt d = some n →
      (checkLengthComparisonL (String.mk ('<' :: d)) len).1 = decide (len < n)) ∧
    (∀ (d : List Char) (n len : Int),
      trimSpaceL ('=' :: '=' :: d) = '=' :: '=' :: d → sscanfInt d = some n →
      (checkLengthComparisonL (String.mk ('=' :: '=' :: d)) len).1 = decide (len = n)) ∧
    (∀ (d : List Char) (n len : Int),
      trimSpaceL ('=' :: d) = '=' :: d → startsWith "=".data d = false →
      sscanfInt d = some n →
      (checkLengthComparisonL (String.mk ('=' :: d)) len).1 = decide (len = n)) ∧
    (∀ (c : List Char) (n len : Int),
      trimSpaceL c = c →
      startsWith ">=".data c = false → startsWith "<=".data c = false →
      startsWith ">".data c = false → startsWith "<".data c = false →
      startsWith "==".data c = false → startsWith "=".data c = false →
      sscanfInt c = some n →
      (checkLengthComparisonL (String.mk c) len).1 = decide (len = n)) ∧
    (∀ (c : List Char) (len : Int),
      trimSpaceL c = c →
      startsWith ">=".data c = false → startsWith "<=".data c = false →
      startsWith ">".data c = false → startsWith "<".data c = false →
      startsWith "==".data c = false → startsWith "=".data c = false →
      sscanfInt c = none →
      checkLengthComparisonL (String.mk c) len
        = (false, "invalid length comparison: " ++ String.mk c)) ∧
    (∀ (d : List Char) (len : Int),
      trimSpaceL ('>' :: d) = '>' :: d → startsWith "=".data d = false →
      sscanfInt d = none →
      (checkLengthComparisonL (String.mk ('>' :: d)) len).1 = decide (len > 0)) := by
  refine ⟨?_, ?_, ?_, ?_, ?_, ?_, ?_, ?_, ?_, ?_⟩
  · intro re js s out
    unfold assertCheck
    rw [if_neg (by simp [assertToString])]
    dsimp only
    rw [if_neg (by decide), if_neg (by decide), if_neg (by decide), if_neg (by decide),
        if_neg (by decide), if_neg (by decide), if_neg (by decide), if_pos rfl]
    rw [backfill_success]
  · intro d n len htrim hscan
    unfold checkLengthComparisonL
    dsimp only
    rw [htrim]
    simp only [List.drop_succ_cons, List.drop_zero, hscan, Option.getD_some]
    split
    · split <;> simp_all
    · rename_i h; exact absurd (by simp [startsWith, List.isPrefixOf]) h
  · intro d n len htrim hscan
    unfold checkLengthComparisonL
    dsimp only
    rw [htrim]
    simp only [List.drop_succ_cons, List.drop_zero, hscan, Option.getD_some]
    split
    · rename_i h; exact Bool.noConfusion h
    split
    · split <;> simp_all
    · rename_i h; exact absurd (by simp [startsWith, List.isPrefixOf]) h
  · intro d n len htrim hne hscan
    unfold checkLengthComparisonL
    dsimp only
    rw [htrim]
    simp only [List.drop_succ_cons, List.drop_zero, hscan, Option.getD_some]
    split
    · rename_i h; exact absurd (show startsWith "=".data d = true from h) (by rw [hne]; decide)
    split
    · rename_i h; exact Bool.noConfusion h
    split
    · split <;> simp_all
    · rename_i h; exact absurd (by simp [startsWith, List.isPrefixOf]) h
  · intro d n len htrim hne hscan
    unfold checkLengthComparisonL
    dsimp only
    rw [htrim]
    simp only [List.drop_succ_cons, List.drop_zero, hscan, Option.getD_some]
    split
    · rename_i h; exact Bool.noConfusion h
    split
    · rename_i h; exact absurd (show startsWith "=".data d = true from h) (by rw [hne]; decide)
    split
    · rename_i h; exact Bool.noConfusion h
    split
    · split <;> simp_all
    · rename_i h; exact absurd (by simp [startsWith, List.isPrefixOf]) h
  · intro d n len htrim hscan
    unfold checkLengthComparisonL
    dsimp only
    rw [htrim]
    simp only [List.drop_succ_cons, List.drop_zero, hscan, Option.getD_some]
    split
    · rename_i h; exact Bool.noConfusion h
    split
    · rename_i h; exact Bool.noConfusion h
    split
    · rename_i h; exact Bool.noConfusion h
    split
    · rename_i h; exact Bool.noConfusion h
    split
    · split <;> simp_all
    · rename_i h; exact absurd (by simp [startsWith, List.isPrefixOf]) h
  · intro d n len htrim hne hscan
    unfold checkLengthComparisonL
    dsimp only
    rw [htrim]
    simp only [List.drop_succ_cons, List.drop_zero, hscan, Option.getD_some]
    split
    · rename_i h; exact Bool.noConfusion h
    split
    · rename_i h; exact Bool.noConfusion h
    split
    · rename_i h; exact Bool.noConfusion h
    split
    · rename_i h; exact Bool.noConfusion h
    split
    · rename_i h; exact absurd (show startsWith "=".data d = true from h) (by rw [hne]; decide)
    split
    · split <;> simp_all
    · rename_i h; exact absurd (by simp [startsWith, List.isPrefixOf]) h
  · intro c n len htrim h1 h2 h3 h4 h5 h6 hscan
    unfold checkLengthComparisonL
    dsimp only
    rw [htrim, if_neg (by simp [h1]), if_neg (by simp [h2]), if_neg (by simp [h3]),
        if_neg (by simp [h4]), if_neg (by simp [h5]), if_neg (by simp [h6]), hscan]
    dsimp only
    split <;> simp_all
  · intro c len htrim h1 h2 h3 h4 h5 h6 hscan
    unfold checkLengthComparisonL
    dsimp only
    rw [htrim, if_neg (by simp [h1]), if_neg (by simp [h2]), if_neg (by simp [h3]),
        if_neg (by simp [h4]), if_neg (by simp [h5]), if_neg (by simp [h6]), hscan]
  · intro d len htrim hne hscan
    unfold checkLengthComparisonL
    dsimp only
    rw [htrim]
    simp only [List.drop_succ_cons, List.drop_zero, hscan, Option.getD_none]
    split
    · rename_i h; exact absurd (show startsWith "=".data d = true from h) (by rw [hne]; decide)
    split
    · rename_i h; exact Bool.noConfusion h
    split
    · split <;> simp_all
    · rename_i h; exact absurd (by simp [startsWith, List.isPrefixOf]) h

/-- C9 witness: concrete instances of every clause — `">=3"`, `"<=3"`,
`">3"`, `"<3"`, `"==4"`, `"=4"`, bare `"4"`, malformed `"abc"` failing, and
malformed `">abc"` compared against zero. -/
theorem c9_length_comparisons_witness :
    (assertCheck failRegexEngine failJsonEngine
        { type := "length", value := GoValue.vStr ">=3", path := "" } "abcd").success
      = (checkLengthComparisonL ">=3" 4).1 ∧
    (checkLengthComparisonL (String.mk ('>' :: '=' :: "3".data)) 4).1 = decide ((4 : Int) ≥ 3) ∧
    (checkLengthComparisonL (String.mk ('<' :: '=' :: "3".data)) 4).1 = decide ((4 : Int) ≤ 3) ∧
    (checkLengthComparisonL (String.mk ('>' :: "3".data)) 4).1 = decide ((4 : Int) > 3) ∧
    (checkLengthComparisonL (String.mk ('<' :: "3".data)) 4).1 = decide ((4 : Int) < 3) ∧
    (checkLengthComparisonL (String.mk ('=' :: '=' :: "4".data)) 4).1 = decide ((4 : Int) = 4) ∧
    (checkLengthComparisonL (String.mk ('=' :: "4".data)) 4).1 = decide ((4 : Int) = 4) ∧
    (checkLengthComparisonL (String.mk "4".data) 4).1 = decide ((4 : Int) = 4) ∧
    checkLengthComparisonL (String.mk "abc".data) 4
      = (false, "invalid length comparison: " ++ String.mk "abc".data) ∧
    (checkLengthComparisonL (String.mk ('>' :: "abc".data)) 4).1 = decide ((4 : Int) > 0) :=
  ⟨c9_length_comparisons.1 failRegexEngine failJsonEngine ">=3" "abcd",
   c9_length_comparisons.2.1 "3".data 3 4 (by decide) (by rfl),
   c9_length_comparisons.2.2.1 "3".data 3 4 (by decide) (by rfl),
   c9_length_comparisons.2.2.2.1 "3".data 3 4 (by decide) (by decide) (by rfl),
   c9_length_comparisons.2.2.2.2.1 "3".data 3 4 (by decide) (by decide) (by rfl),
   c9_length_comparisons.2.2.2.2.2.1 "4".data 4 4 (by decide) (by rfl),
   c9_length_comparisons.2.2.2.2.2.2.1 "4".data 4 4 (by decide) (by decide) (by rfl),
   c9_length_comparisons.2.2.2.2.2.2.2.1 "4".data 4 4 (by decide) (by decide) (by decide)
     (by decide) (by decide) (by decide) (by decide) (by rfl),
   c9_length_comparisons.2.2.2.2.2.2.2.2.1 "abc".data 4 (by decide) (by decide) (by decide)
     (by decide) (by decide) (by decide) (by decide) (by rfl),
   c9_length_comparisons.2.2.2.2.2.2.2.2.2 "abc".data 4 (by decide) (by decide) (by rfl)⟩

/-- C10: `Assertion.Check` is total — for every assertion record, engine and
output it returns a result whose reason is non-empty (the fixed success
string backfills success paths), and an unrecognized type yields
`success = false` with a reason naming the type. -/
theorem c10_check_total (re : RegexEngine) (js : JsonEngine) (a : Assertion)
    (out : String) :
    (assertCheck re js a out).reason ≠ "" ∧
    (a.type ∉ knownAssertionTypes →
      (assertCheck re js a out).success = false ∧
      (assertCheck re js a out).reason = "unknown assertion type: " ++ a.type) := by
  have hconv : (assertToString a.value).2 = true := by
    cases a.value <;> rfl
  constructor
  · unfold assertCheck
    rw [if_neg (by simp [hconv])]
    dsimp only
    apply backfill_reason_ne
    by_cases h1 : a.type = "contains"
    · rw [if_pos h1]
      by_cases hc : containsSub out.data (assertToString a.value).1.data = true
      · rw [if_pos hc]; exact Or.inl rfl
      · rw [if_neg hc]
        exact Or.inr (strAppend_ne_empty _ (by decide))
    rw [if_neg h1]
    by_cases h2 : a.type = "not-contains"
    · rw [if_pos h2]
      by_cases hc : containsSub out.data (assertToString a.value).1.data = true
      · rw [if_pos hc]
        exact Or.inr (strAppend_ne_empty _ (by decide))
      · rw [if_neg hc]; exact Or.inl rfl
    rw [if_neg h2]
    by_cases h3 : a.type = "equals"
    · rw [if_pos h3]
      by_cases hc : out = (assertToString a.value).1
      · rw [if_pos hc]; exact Or.inl rfl
      · rw [if_neg hc]
        refine Or.inr ?_
        show ("output does not match expected string" : String) ≠ ""
        decide
    rw [if_neg h3]
    by_cases h4 : a.type = "regex"
    · rw [if_pos h4]
      cases re.compile (assertToString a.value).1 with
      | error e => exact Or.inr (strAppend_ne_empty _ (by decide))
      | ok matcher =>
        dsimp only
        by_cases hc : matcher out = true
        · rw [if_pos hc]; exact Or.inl rfl
        · rw [if_neg hc]
          exact Or.inr (strAppend_ne_empty _ (by decide))
    rw [if_neg h4]
    by_cases h5 : a.type = "starts-with"
    · rw [if_pos h5]
      by_cases hc : startsWith (assertToString a.value).1.data out.data = true
      · rw [if_pos hc]; exact Or.inl rfl
      · rw [if_neg hc]
        exact Or.inr (strAppend_ne_empty _ (by decide))
    rw [if_neg h5]
    by_cases h6 : a.type = "ends-with"
    · rw [if_pos h6]
      by_cases hc : endsWith (assertToString a.value).1.data out.data = true
      · rw [if_pos hc]; exact Or.inl rfl
      · rw [if_neg hc]
        exact Or.inr (strAppend_ne_empty _ (by decide))
    rw [if_neg h6]
    by_cases h7 : a.type = "json"
    · rw [if_pos h7]
      cases js.parse out with
      | error e => exact Or.inr (strAppend_ne_empty _ (by decide))
      | ok u =>
        refine Or.inr ?_
        show ("JSON assertion not fully implemented yet" : String) ≠ ""
        decide
    rw [if_neg h7]
    by_cases h8 : a.type = "length"
    · rw [if_pos h8]
      cases hv : a.value with
      | vFloat num printed =>
        dsimp only
        by_cases hc : (out.length : Int) = num
        · rw [if_pos hc]; exact Or.inl rfl
        · rw [if_neg hc]
          exact Or.inr (lenFourApp_ne _ _ _ _ (by decide))
      | vStr s =>
        dsimp only
        rcases hlc : checkLengthComparisonL s (out.length : Int) with ⟨b, reason⟩
        cases b with
        | true => exact Or.inl rfl
        | false => exact Or.inr (checkLength_false_reason_ne hlc)
      | vBytes s => exact Or.inr (strAppend_ne_empty _ (by decide))
      | vBool b => exact Or.inr (strAppend_ne_empty _ (by decide))
      | vInt n => exact Or.inr (strAppend_ne_empty _ (by decide))
      | vOther p tn => exact Or.inr (strAppend_ne_empty _ (by decide))
    rw [if_neg h8]
    exact Or.inr (strAppend_ne_empty _ (by decide))
  · intro hunk
    have h1 : a.type ≠ "contains" := fun h => hunk (by simp [knownAssertionTypes, h])
    have h2 : a.type ≠ "not-contains" := fun h => hunk (by simp [knownAssertionTypes, h])
    have h3 : a.type ≠ "equals" := fun h => hunk (by simp [knownAssertionTypes, h])
    have h4 : a.type ≠ "regex" := fun h => hunk (by simp [knownAssertionTypes, h])
    have h5 : a.type ≠ "starts-with" := fun h => hunk (by simp [knownAssertionTypes, h])
    have h6 : a.type ≠ "ends-with" := fun h => hunk (by simp [knownAssertionTypes, h])
    have h7 : a.type ≠ "json" := fun h => hunk (by simp [knownAssertionTypes, h])
    have h8 : a.type ≠ "length" := fun h => hunk (by simp [knownAssertionTypes, h])
    unfold assertCheck
    rw [if_neg (by simp [hconv])]
    dsimp only
    rw [if_neg h1, if_neg h2, if_neg h3, if_neg h4,
        if_neg h5, if_neg h6, if_neg h7, if_neg h8]
    constructor <;> rfl

/-- C10 witness: a concrete unrecognized type. -/
theorem c10_check_total_witness :
    (assertCheck failRegexEngine failJsonEngine
        { type := "bogus", value := GoValue.vStr "v", path := "" } "out").reason ≠ "" ∧
    ("bogus" ∉ knownAssertionTypes →
      (assertCheck failRegexEngine failJsonEngine
          { type := "bogus", value := GoValue.vStr "v", path := "" } "out").success = false ∧
      (assertCheck failRegexEngine failJsonEngine
          { type := "bogus", value := GoValue.vStr "v", path := "" } "out").reason
        = "unknown assertion type: " ++ "bogus") :=
  c10_check_total failRegexEngine failJsonEngine
    { type := "bogus", value := GoValue.vStr "v", path := "" } "out"

/-! ### Scanner lemmas for the general substitution and escaping theorems -/

/-- Unfolding step of `replaceAllAux` on a cons cell. -/
theorem replaceAllAux_cons (pat rep : List Char) (f : Nat) (c : Char) (t : List Char) :
    replaceAllAux pat rep (f + 1) (c :: t)
      = if pat.isPrefixOf (c :: t) = true then
          rep ++ replaceAllAux pat rep f (t.drop (pat.length - 1))
        else c :: replaceAllAux pat rep f t := by
  conv_lhs => unfold replaceAllAux

/-- `replaceAllL` with a cons pattern is the scan at fuel `length + 1`. -/
theorem replaceAllL_eq (s : List Char) (hch : Char) (p' rep : List Char) :
    replaceAllL s (hch :: p') rep
      = replaceAllAux (hch :: p') rep (s.length + 1) s := rfl

/-- Unfolding step of `containsSub` on a cons cell. -/
theorem containsSub_cons (c : Char) (t pat : List Char) :
    containsSub (c :: t) pat = (pat.isPrefixOf (c :: t) || containsSub t pat) := rfl

/-- `replaceAllAux` does not depend on the fuel once it exceeds the text
length. -/
theorem replaceAllAux_fuel (pat rep : List Char) :
    ∀ (f1 : Nat) (s : List Char) (f2 : Nat), s.length < f1 → s.length < f2 →
      replaceAllAux pat rep f1 s = replaceAllAux pat rep f2 s := by
  intro f1
  induction f1 with
  | zero => intro s f2 h1; omega
  | succ f ih =>
    intro s f2 h1 h2
    cases s with
    | nil =>
      cases f2 with
      | zero => omega
      | succ g => rfl
    | cons c t =>
      cases f2 with
      | zero => omega
      | succ g =>
        rw [replaceAllAux_cons, replaceAllAux_cons]
        by_cases hp : pat.isPrefixOf (c :: t) = true
        · rw [if_pos hp, if_pos hp]
          have hlen := List.length_drop (pat.length - 1) t
          simp only [List.length_cons] at h1 h2
          rw [ih (t.drop (pat.length - 1)) g (by omega) (by omega)]
        · rw [if_neg hp, if_neg hp]
          simp only [List.length_cons] at h1 h2
          rw [ih t g (by omega) (by omega)]

/-- `replaceAllL` on the empty text. -/
theorem replaceAllL_nil (pat rep : List Char) : replaceAllL [] pat rep = [] := by
  unfold replaceAllL replaceAllAux
  split <;> rfl

/-- A cons-cell prefix test against a different head character fails. -/
theorem isPrefixOf_cons_ne {hch c : Char} (p' t : List Char) (hc : c ≠ hch) :
    (hch :: p').isPrefixOf (c :: t) = false := by
  simp only [List.isPrefixOf, Bool.and_eq_false_iff]
  exact Or.inl (beq_eq_false_iff_ne.mpr (Ne.symm hc))

/-- A chunk whose characters all differ from the pattern's first character
passes through the replacement scan untouched. -/
theorem replaceAllL_pass (hch : Char) (p' rep : List Char) (xs rest : List Char)
    (hxs : ∀ c ∈ xs, c ≠ hch) :
    replaceAllL (xs ++ rest) (hch :: p') rep
      = xs ++ replaceAllL rest (hch :: p') rep := by
  induction xs with
  | nil => simp
  | cons c t ih =>
    have hpf := isPrefixOf_cons_ne p' (t ++ rest) (hxs c (by simp))
    rw [List.cons_append, replaceAllL_eq,
        show (c :: (t ++ rest)).length = (t ++ rest).length + 1 from by simp,
        replaceAllAux_cons, if_neg (by simp [hpf]), ← replaceAllL_eq,
        ih (fun d hd => hxs d (by simp [hd])), List.cons_append]

/-- The pattern itself at the head of the text is replaced and the scan
resumes after it. -/
theorem replaceAllL_match (pat rep rest : List Char) (hne : pat ≠ []) :
    replaceAllL (pat ++ rest) pat rep = rep ++ replaceAllL rest pat rep := by
  cases pat with
  | nil => exact absurd rfl hne
  | cons q q' =>
    have hpf : (q :: q').isPrefixOf ((q :: q') ++ rest) = true :=
      List.isPrefixOf_iff_prefix.mpr (List.prefix_append _ _)
    rw [replaceAllL_eq, show ((q :: q') ++ rest).length = (q' ++ rest).length + 1
          from by simp,
        show (q :: q') ++ rest = q :: (q' ++ rest) from rfl,
        replaceAllAux_cons, if_pos (by simpa using hpf)]
    congr 1
    rw [show (q' ++ rest).drop ((q :: q').length - 1) = rest from by
          simp only [List.length_cons, Nat.add_sub_cancel]; exact List.drop_left q' rest,
        replaceAllAux_fuel (q :: q') rep ((q' ++ rest).length + 1) rest (rest.length + 1)
          (by simp only [List.length_append]; omega) (by omega), ← replaceAllL_eq]

/-- A text in which the pattern does not occur is left unchanged. -/
theorem replaceAllL_no_occur (pat rep s : List Char)
    (h : containsSub s pat = false) : replaceAllL s pat rep = s := by
  induction s with
  | nil => exact replaceAllL_nil pat rep
  | cons c t ih =>
    rw [containsSub_cons, Bool.or_eq_false_iff] at h
    cases pat with
    | nil => simp [List.isPrefixOf] at h
    | cons q q' =>
      rw [replaceAllL_eq, show (c :: t).length = t.length + 1 from by simp,
          replaceAllAux_cons, if_neg (by simp [h.1]), ← replaceAllL_eq, ih h.2]

/-- A chunk free of the pattern's first character contributes no occurrence. -/
theorem containsSub_pass (hch : Char) (p' : List Char) (xs rest : List Char)
    (hxs : ∀ c ∈ xs, c ≠ hch) :
    containsSub (xs ++ rest) (hch :: p') = containsSub rest (hch :: p') := by
  induction xs with
  | nil => simp
  | cons c t ih =>
    have hpf := isPrefixOf_cons_ne p' (t ++ rest) (hxs c (by simp))
    rw [List.cons_append, containsSub_cons, hpf, Bool.false_or]
    exact ih (fun d hd => hxs d (by simp [hd]))

/-- A text free of the pattern's first character contains no occurrence. -/
theorem containsSub_none (hch : Char) (p' : List Char) (xs : List Char)
    (hxs : ∀ c ∈ xs, c ≠ hch) : containsSub xs (hch :: p') = false := by
  have := containsSub_pass hch p' xs [] hxs
  simpa using this

/-- The replacement scan on a text with exactly two placeholder sites whose
surrounding chunks are free of the opening brace: both sites are replaced,
everything else is untouched. -/
theorem replace_two_span (a b c v' : List Char) (n : String)
    (ha : ∀ ch ∈ a, ch ≠ '\x7b') (hb : ∀ ch ∈ b, ch ≠ '\x7b')
    (hc : ∀ ch ∈ c, ch ≠ '\x7b') :
    replaceAllL (a ++ (spanOf n ++ (b ++ (spanOf n ++ c)))) (spanOf n) v'
      = a ++ (v' ++ (b ++ (v' ++ c))) := by
  have hsp : spanOf n = '\x7b' :: ('\x7b' :: (n.data ++ closeSpan)) := rfl
  rw [hsp, replaceAllL_pass _ _ _ a _ ha, ← hsp,
      replaceAllL_match _ _ _ (by rw [hsp]; exact List.cons_ne_nil _ _),
      hsp, replaceAllL_pass _ _ _ b _ hb, ← hsp,
      replaceAllL_match _ _ _ (by rw [hsp]; exact List.cons_ne_nil _ _),
      hsp, replaceAllL_no_occur _ _ c (containsSub_none _ _ c hc)]

/-- A brace-free text is a fixed point of the whole replacement loop. -/
theorem substFold_fixed (rest : VarMap) (R : List Char)
    (hR : ∀ ch ∈ R, ch ≠ '\x7b') :
    rest.foldl (fun acc p => replaceAllL acc (spanOf p.1) (coerceValue p.2).data) R
      = R := by
  induction rest with
  | nil => rfl
  | cons p t ih =>
    simp only [List.foldl_cons]
    rw [show spanOf p.1 = '\x7b' :: ('\x7b' :: (p.1.data ++ closeSpan)) from rfl,
        replaceAllL_no_occur _ _ _ (containsSub_none _ _ _ hR), ih]

/-- The replacement loop of `ProcessPrompt` on a two-site template: the
first binding of `n` replaces both sites with its coerced value; bindings of
other names whose placeholders do not occur leave the text unchanged. -/
theorem substFold_two_span :
    ∀ (vars : VarMap) (a b c : List Char) (n : String) (v : GoValue),
    (∀ ch ∈ a, ch ≠ '\x7b') → (∀ ch ∈ b, ch ≠ '\x7b') → (∀ ch ∈ c, ch ≠ '\x7b') →
    (∀ ch ∈ (coerceValue v).data, ch ≠ '\x7b') →
    lookupVar vars n = some v →
    (∀ p ∈ vars, p.1 ≠ n →
      containsSub (a ++ (spanOf n ++ (b ++ (spanOf n ++ c)))) (spanOf p.1) = false) →
    vars.foldl (fun acc p => replaceAllL acc (spanOf p.1) (coerceValue p.2).data)
        (a ++ (spanOf n ++ (b ++ (spanOf n ++ c))))
      = a ++ ((coerceValue v).data ++ (b ++ ((coerceValue v).data ++ c))) := by
  intro vars
  induction vars with
  | nil =>
    intro a b c n v _ _ _ _ hlk _
    exact absurd hlk (by unfold lookupVar; exact Option.noConfusion)
  | cons p rest ih =>
    intro a b c n v ha hb hc hv hlk hother
    by_cases hpn : p.1 = n
    · have hw : p.2 = v := by
        unfold lookupVar at hlk
        rw [if_pos hpn] at hlk
        exact Option.some.inj hlk
      simp only [List.foldl_cons]
      rw [hpn, hw, replace_two_span a b c _ n ha hb hc]
      apply substFold_fixed
      intro ch hch
      simp only [List.mem_append] at hch
      rcases hch with h | h | h | h | h
      exacts [ha ch h, hv ch h, hb ch h, hv ch h, hc ch h]
    · simp only [List.foldl_cons]
      rw [show spanOf p.1 = '\x7b' :: ('\x7b' :: (p.1.data ++ closeSpan)) from rfl,
          replaceAllL_no_occur _ _ _
            (by rw [show ('\x7b' :: ('\x7b' :: (p.1.data ++ closeSpan))) = spanOf p.1
                  from rfl]
                exact hother p (by simp) hpn)]
      refine ih a b c n v ha hb hc hv ?_ ?_
      · unfold lookupVar at hlk
        rwa [if_neg hpn] at hlk
      · intro q hq hqn
        exact hother q (by simp [hq]) hqn

/-- C2 as amended: variable substitution is literal per-occurrence
replacement — on a template with two occurrences of `\x7b\x7bn\x7d\x7d` amid
opening-brace-free text, with `n` bound, the other bindings' placeholders
absent, and the substituted value itself free of `\x7b` (so that the Go
`text/template` fallback is not triggered), `ProcessPrompt` replaces each
occurrence independently with the same coerced value and alters nothing
else.  The counterexample shows the verbatim-insertion part of the original
claim fails when the value does contain `\x7b\x7b`. -/
theorem c2_literal_substitution (a b c : List Char) (n : String) (v : GoValue)
    (vars : VarMap)
    (hcheck : checkSimpleVars (a ++ spanOf n ++ b ++ spanOf n ++ c) vars = [])
    (ha : ∀ ch ∈ a, ch ≠ '\x7b') (hb : ∀ ch ∈ b, ch ≠ '\x7b')
    (hc : ∀ ch ∈ c, ch ≠ '\x7b')
    (hv : ∀ ch ∈ (coerceValue v).data, ch ≠ '\x7b')
    (hlk : lookupVar vars n = some v)
    (hother : ∀ p ∈ vars, p.1 ≠ n →
      containsSub (a ++ spanOf n ++ b ++ spanOf n ++ c) (spanOf p.1) = false) :
    processPromptL (a ++ spanOf n ++ b ++ spanOf n ++ c) vars
      = .ok (a ++ (coerceValue v).data ++ b ++ (coerceValue v).data ++ c) := by
  have hassoc : a ++ spanOf n ++ b ++ spanOf n ++ c
      = a ++ (spanOf n ++ (b ++ (spanOf n ++ c))) := by
    simp [List.append_assoc]
  unfold processPromptL
  rw [hcheck]
  dsimp only
  rw [hassoc, substFold_two_span vars a b c n v ha hb hc hv hlk
        (fun p hp hpn => by rw [← hassoc]; exact hother p hp hpn)]
  have hR : ∀ ch ∈ a ++ ((coerceValue v).data ++ (b ++ ((coerceValue v).data ++ c))),
      ch ≠ '\x7b' := by
    intro ch hch
    simp only [List.mem_append] at hch
    rcases hch with h | h | h | h | h
    exacts [ha ch h, hv ch h, hb ch h, hv ch h, hc ch h]
  rw [show openSpan = '\x7b' :: ['\x7b'] from rfl,
      containsSub_none '\x7b' ['\x7b'] _ hR]
  simp [List.append_assoc]

/-- C2 witness: `"Hello, \x7b\x7bname\x7d\x7d and \x7b\x7bname\x7d\x7d!"` with `name ↦ World`
and an unrelated binding substitutes both occurrences. -/
theorem c2_literal_substitution_witness :
    processPromptL ("Hello, ".data ++ spanOf "name" ++ " and ".data ++
        spanOf "name" ++ "!".data)
        [("name", GoValue.vStr "World"), ("other", GoValue.vInt 1)]
      = .ok ("Hello, ".data ++ "World".data ++ " and ".data ++ "World".data ++ "!".data) :=
  c2_literal_substitution "Hello, ".data " and ".data "!".data "name"
    (GoValue.vStr "World") [("name", GoValue.vStr "World"), ("other", GoValue.vInt 1)]
    (by decide) (by decide) (by decide) (by decide) (by decide) (by rfl) (by decide)

/-- Unfolding step of `hideEscapedF` on a non-backslash character. -/
theorem hideEscapedF_cons_other (f : Nat) {c : Char} (t : List Char) (n : Nat)
    (hc : c ≠ '\\') :
    hideEscapedF (f + 1) (c :: t) n
      = (c :: (hideEscapedF f t n).1, (hideEscapedF f t n).2) := by
  conv_lhs => unfold hideEscapedF
  rw [if_neg hc]

/-- Unfolding step of `hideEscapedF` on a backslash followed by a span
match. -/
theorem hideEscapedF_cons_bs_some (f : Nat) {t inner rest : List Char} (n : Nat)
    (hm : spanMatchAt t = some (inner, rest)) :
    hideEscapedF (f + 1) ('\\' :: t) n
      = (escPlaceholder n ++ (hideEscapedF f rest (n + 1)).1,
         (escPlaceholder n, '\\' :: openSpan ++ inner ++ closeSpan) ::
           (hideEscapedF f rest (n + 1)).2) := by
  conv_lhs => unfold hideEscapedF
  rw [if_pos rfl, hm]

/-- A span match strictly shortens the text. -/
theorem spanMatchAt_length {t inner rest : List Char}
    (h : spanMatchAt t = some (inner, rest)) : rest.length < t.length := by
  unfold spanMatchAt at h
  split at h
  next rest0 =>
    dsimp only at h
    split at h
    · simp only [Option.some.injEq, Prod.mk.injEq] at h
      obtain ⟨-, rfl⟩ := h
      simp only [List.length_drop, List.length_cons]
      omega
    · simp at h
  next => simp at h

/-- `hideEscapedF` does not depend on the fuel once it exceeds the text
length. -/
theorem hideEscapedF_fuel :
    ∀ (f1 : Nat) (s : List Char) (n f2 : Nat), s.length < f1 → s.length < f2 →
      hideEscapedF f1 s n = hideEscapedF f2 s n := by
  intro f1
  induction f1 with
  | zero => intro s n f2 h1; omega
  | succ f ih =>
    intro s n f2 h1 h2
    cases s with
    | nil =>
      cases f2 with
      | zero => omega
      | succ g => rfl
    | cons c t =>
      cases f2 with
      | zero => omega
      | succ g =>
        simp only [List.length_cons] at h1 h2
        by_cases hc : c = '\\'
        · subst hc
          cases hm : spanMatchAt t with
          | some pr =>
            obtain ⟨inner, rest⟩ := pr
            have hlen := spanMatchAt_length hm
            rw [hideEscapedF_cons_bs_some f n hm, hideEscapedF_cons_bs_some g n hm,
                ih rest (n + 1) g (by omega) (by omega)]
          | none =>
            conv_lhs => unfold hideEscapedF
            conv_rhs => unfold hideEscapedF
            rw [if_pos rfl, if_pos rfl, hm]
            rw [ih t n g (by omega) (by omega)]
        · rw [hideEscapedF_cons_other f t n hc, hideEscapedF_cons_other g t n hc,
              ih t n g (by omega) (by omega)]

/-- A chunk without backslashes passes through the hiding scan untouched. -/
theorem hideEscaped_pass (n : Nat) (a rest : List Char)
    (ha : ∀ c ∈ a, c ≠ '\\') :
    hideEscaped (a ++ rest) n
      = (a ++ (hideEscaped rest n).1, (hideEscaped rest n).2) := by
  induction a with
  | nil => simp
  | cons c t ih =>
    have hc : c ≠ '\\' := ha c (by simp)
    show hideEscapedF ((c :: (t ++ rest)).length + 1) (c :: (t ++ rest)) n = _
    rw [show (c :: (t ++ rest)).length + 1 = (t ++ rest).length + 1 + 1 from by simp,
        hideEscapedF_cons_other _ _ _ hc,
        show hideEscapedF ((t ++ rest).length + 1) (t ++ rest) n
          = hideEscaped (t ++ rest) n from rfl,
        ih (fun d hd => ha d (by simp [hd]))]
    simp

/-- A text without backslashes is hidden to itself with an empty restore
map. -/
theorem hideEscaped_only (n : Nat) (b : List Char) (hb : ∀ c ∈ b, c ≠ '\\') :
    hideEscaped b n = (b, []) := by
  have h := hideEscaped_pass n b [] hb
  rw [show hideEscaped [] n = ([], []) from rfl] at h
  simpa using h

/-- `takeWhile` stops exactly at the first failing element after a passing
chunk. -/
theorem takeWhile_append_stop (p : Char → Bool) (x : List Char) (y : Char)
    (r : List Char) (hx : ∀ c ∈ x, p c = true) (hy : p y = false) :
    (x ++ y :: r).takeWhile p = x := by
  induction x with
  | nil => simp [List.takeWhile_cons, hy]
  | cons c t ih =>
    have htail := ih (fun d hd => hx d (by simp [hd]))
    simp [List.takeWhile_cons, hx c (by simp), htail]

/-- Unfolding of the span matcher at a double opening brace. -/
theorem spanMatchAt_cons (rest : List Char) :
    spanMatchAt ('\x7b' :: '\x7b' :: rest)
      = (if rest.takeWhile (fun ch => ¬ isBrace ch) ≠ [] ∧
            startsWith ['\x7d', '\x7d']
              (rest.drop (rest.takeWhile (fun ch => ¬ isBrace ch)).length) = true then
          some (rest.takeWhile (fun ch => ¬ isBrace ch),
                (rest.drop (rest.takeWhile (fun ch => ¬ isBrace ch)).length).drop 2)
        else none) := rfl

/-- The span matcher on an exact span followed by arbitrary text. -/
theorem spanMatchAt_exact (x b : List Char) (hx1 : x ≠ [])
    (hx2 : ∀ ch ∈ x, isBrace ch = false) :
    spanMatchAt (openSpan ++ (x ++ (closeSpan ++ b))) = some (x, b) := by
  rw [show (openSpan ++ (x ++ (closeSpan ++ b)) : List Char)
        = '\x7b' :: '\x7b' :: (x ++ ('\x7d' :: '\x7d' :: b)) from by
        simp [openSpan, closeSpan]]
  rw [spanMatchAt_cons,
      takeWhile_append_stop _ x _ _ (fun c hc => by simp [hx2 c hc]) (by simp [isBrace]),
      List.drop_left, if_pos ⟨hx1, by simp [startsWith, List.isPrefixOf]⟩]
  rfl

/-- Hiding at an escaped span: the span is replaced by the numbered
placeholder and recorded, and a backslash-free tail is left as is. -/
theorem hideEscaped_esc (n : Nat) (x b : List Char) (hx1 : x ≠ [])
    (hx2 : ∀ ch ∈ x, isBrace ch = false) (hb : ∀ c ∈ b, c ≠ '\\') :
    hideEscaped ('\\' :: (openSpan ++ (x ++ (closeSpan ++ b)))) n
      = (escPlaceholder n ++ b,
         [(escPlaceholder n, '\\' :: openSpan ++ x ++ closeSpan)]) := by
  have hm : spanMatchAt (openSpan ++ (x ++ (closeSpan ++ b))) = some (x, b) :=
    spanMatchAt_exact x b hx1 hx2
  show hideEscapedF (('\\' :: (openSpan ++ (x ++ (closeSpan ++ b)))).length + 1)
      ('\\' :: (openSpan ++ (x ++ (closeSpan ++ b)))) n = _
  rw [show ('\\' :: (openSpan ++ (x ++ (closeSpan ++ b)))).length + 1
        = (openSpan ++ (x ++ (closeSpan ++ b))).length + 1 + 1 from by simp,
      hideEscapedF_cons_bs_some _ n hm,
      hideEscapedF_fuel ((openSpan ++ (x ++ (closeSpan ++ b))).length + 1) b (n + 1)
        (b.length + 1)
        (by simp only [List.length_append]; omega) (by omega),
      show hideEscapedF (b.length + 1) b (n + 1) = hideEscaped b (n + 1) from rfl,
      hideEscaped_only (n + 1) b hb]

/-- C6 as amended: restoring the hidden form yields the original text with
each escaped directive's leading escape marker removed — not the original
text itself.  Verified for templates with one escaped directive whose
surrounding text contains no backslash (no other escape) and no underscore
(no placeholder collision), and whose span body is non-empty and
brace-free. -/
theorem c6_restore_strips_marker (a x b : List Char)
    (ha : ∀ ch ∈ a, ch ≠ '\\' ∧ ch ≠ '_')
    (hx1 : x ≠ []) (hx2 : ∀ ch ∈ x, isBrace ch = false)
    (hb : ∀ ch ∈ b, ch ≠ '\\' ∧ ch ≠ '_') :
    restoreEscaped
        (hideEscaped (a ++ '\\' :: openSpan ++ x ++ closeSpan ++ b) 0).2
        (hideEscaped (a ++ '\\' :: openSpan ++ x ++ closeSpan ++ b) 0).1
      = a ++ openSpan ++ x ++ closeSpan ++ b := by
  simp only [List.append_assoc, List.cons_append]
  rw [hideEscaped_pass 0 a _ (fun c hc => (ha c hc).1),
      hideEscaped_esc 0 x b hx1 hx2 (fun c hc => (hb c hc).1)]
  rw [show restoreEscaped [(escPlaceholder 0, '\\' :: openSpan ++ x ++ closeSpan)]
        (a ++ (escPlaceholder 0 ++ b))
      = replaceAllL (a ++ (escPlaceholder 0 ++ b)) (escPlaceholder 0)
          (openSpan ++ x ++ closeSpan) from rfl]
  rw [show escPlaceholder 0 = '_' :: "_ESCAPED_VAR_0__".data from rfl,
      replaceAllL_pass _ _ _ a _ (fun c hc => (ha c hc).2),
      replaceAllL_match _ _ _ (List.cons_ne_nil _ _),
      replaceAllL_no_occur _ _ b (containsSub_none _ _ b (fun c hc => (hb c hc).2))]
  simp [List.append_assoc]

/-- C6 witness: a concrete template around one escaped span. -/
theorem c6_restore_strips_marker_witness :
    restoreEscaped
        (hideEscaped ("Hello ".data ++ '\\' :: openSpan ++ "name".data ++
            closeSpan ++ "!".data) 0).2
        (hideEscaped ("Hello ".data ++ '\\' :: openSpan ++ "name".data ++
            closeSpan ++ "!".data) 0).1
      = "Hello ".data ++ openSpan ++ "name".data ++ closeSpan ++ "!".data :=
  c6_restore_strips_marker "Hello ".data "name".data "!".data
    (by decide) (by decide) (by decide) (by decide)

/-- C6 counterexample: restoration after hiding strips the escape marker, so
on `T = "\\\x7b\x7bx\x7d\x7d"` the claimed byte-for-byte identity fails: the result is
`"\x7b\x7bx\x7d\x7d"`, not `T`. -/
theorem c6_counterexample :
    restoreEscaped (hideEscaped "\\\x7b\x7bx\x7d\x7d".data 0).2
        (hideEscaped "\\\x7b\x7bx\x7d\x7d".data 0).1
      = "\x7b\x7bx\x7d\x7d".data ∧
    restoreEscaped (hideEscaped "\\\x7b\x7bx\x7d\x7d".data 0).2
        (hideEscaped "\\\x7b\x7bx\x7d\x7d".data 0).1
      ≠ "\\\x7b\x7bx\x7d\x7d".data := by
  refine ⟨by rfl, by decide⟩

end PE
